import Mathlib

/-!
Verification of the WSDL Definition graph builder and resolver
(`src/zeep/wsdl/wsdl.py`).  The Python classes `Document` and `Definition`
are shallowly embedded: the namespace→Definition registry becomes an arena
of `Definition` records indexed by allocation order, XML documents become
`RawDoc` records holding exactly the attributes the parser reads, and the
external collaborators (loader, schema type system, binding classes) are
modelled at their interface boundary.  All functions are executable.
-/

namespace Zeep

/-! ### Association lists

Python `dict` is modelled as an insertion-ordered association list:
lookup returns the value of the (unique) matching key, assignment
overwrites in place or appends at the end, and `.values()` iterates in
insertion order.  This matches CPython dict semantics.
-/

def alookup {α β : Type} [DecidableEq α] : List (α × β) → α → Option β
  | [], _ => none
  | (k, v) :: rest, key => if k = key then some v else alookup rest key

def assocSet {α β : Type} [DecidableEq α] : List (α × β) → α → β → List (α × β)
  | [], key, v => [(key, v)]
  | (k, w) :: rest, key, v =>
    if k = key then (key, v) :: rest else (k, w) :: assocSet rest key v

/-- Keys of an association list, in order. -/
def keysOf {α β : Type} (l : List (α × β)) : List α := l.map Prod.fst

/-! ### Binding classification (`Definition.parse_binding`, wsdl.py:360-406)

The four binding classes are external collaborators; each contributes a
purely structural `match` predicate on the binding XML node.  A
`BindingNode` records the node name together with the outcome of the four
structural sniffs (presence of the kind-specific extensibility elements).
-/

inductive BindingKind where
  | soap11
  | soap12
  | httpGet
  | httpPost
deriving DecidableEq

structure BindingNode where
  name : String
  /-- result of `soap.Soap11Binding.match(binding_node)` -/
  soap11 : Bool
  /-- result of `soap.Soap12Binding.match(binding_node)` -/
  soap12 : Bool
  /-- result of `http.HttpGetBinding.match(binding_node)` -/
  httpGet : Bool
  /-- result of `http.HttpPostBinding.match(binding_node)` -/
  httpPost : Bool
deriving DecidableEq

structure ParsedBinding where
  name : String
  kind : BindingKind
deriving DecidableEq

/-- Entries of the `messages`/`port_types`/`bindings`/`services` tables.
Entities other than bindings are opaque parsed objects produced by the
external `definitions` module; they are identified by an abstract id. -/
inductive Entity where
  | obj (id : Nat)
  | binding (b : ParsedBinding)
deriving DecidableEq

/-- The if/elif classification chain in `parse_binding` (wsdl.py:394-403):
SOAP 1.1, then SOAP 1.2, then HTTP GET, then HTTP POST; first match wins,
no match yields no binding (the `continue` branch). -/
def classifyBinding (n : BindingNode) : Option ParsedBinding :=
  if n.soap11 then some ⟨n.name, .soap11⟩
  else if n.soap12 then some ⟨n.name, .soap12⟩
  else if n.httpGet then some ⟨n.name, .httpGet⟩
  else if n.httpPost then some ⟨n.name, .httpPost⟩
  else none

/-- `result[key] = value` accumulation used by all the `parse_*` table
builders (`dict` assignment, overwriting duplicates). -/
def mkTable (l : List (String × Entity)) : List (String × Entity) :=
  l.foldl (fun acc p => assocSet acc p.1 p.2) []

/-- `Definition.parse_binding` (wsdl.py:391-406): classify each
`wsdl:binding` node, skip unclassified ones, key the result table by
`binding.name.text`. -/
def parse_binding (nodes : List BindingNode) : List (String × Entity) :=
  nodes.foldl
    (fun acc n =>
      match classifyBinding n with
      | some b => assocSet acc b.name (Entity.binding b)
      | none => acc)
    []

/-! ### Schema stitching (`Definition.parse_types`, wsdl.py:236-321) -/

/-- An `xsd:import` element (2001 namespace), as read by `parse_types`:
its `schemaLocation` and `namespace` attributes (absent attribute =
`none`).  `ns` stands for the `namespace` attribute (a Lean keyword). -/
structure ImportDirective where
  schemaLocation : Option String
  ns : Option String
deriving DecidableEq

/-- One `xsd:schema` fragment found under `wsdl:types`.  `imports` lists
its 2001-namespace `xsd:import` children in document order (the source
only rewrites those: "Only handle the import statements from the 2001
xsd's for now").  `schemaEmpty` records the external type system's
`is_empty` verdict for the fragment compiled on its own. -/
structure SchemaFragment where
  targetNamespace : Option String
  schemaEmpty : Bool
  imports : List ImportDirective
deriving DecidableEq

/-- Python falsiness of an optional string attribute (`if not location`,
`if schema_node.get('targetNamespace')`): absent or empty. -/
def isFalsy : Option String → Bool
  | none => true
  | some s => s = ""

/-- The synthetic internal location token `'intschema:xsd%d' % i`. -/
def intName (i : Nat) : String := "intschema:xsd" ++ toString i

def schemaNsGo : Nat → List SchemaFragment → List (Option String × String) →
    List (Option String × String)
  | _, [], acc => acc
  | i, f :: rest, acc => schemaNsGo (i + 1) rest (assocSet acc f.targetNamespace (intName i))

/-- The `schema_ns` mapping (wsdl.py:286-291): target namespace of each
fragment → its synthetic token, later fragments overwriting earlier ones
with the same target namespace.  The side registrations into the parser
context are external side effects, not modelled. -/
def schemaNs (fs : List SchemaFragment) : List (Option String × String) :=
  schemaNsGo 0 fs []

inductive StitchError where
  /-- the unguarded `schema_ns[namespace]` lookup raised `KeyError` -/
  | keyError (ns : Option String)
deriving DecidableEq

/-- Processing of one pre-existing import directive of a fragment
(wsdl.py:310-316): a falsy `schemaLocation` is rewritten to the synthetic
token of the referenced namespace (`schema_ns[namespace]`, raising
`KeyError` when absent), an explicit location is kept; the (copy of the)
directive is appended to the container either way. -/
def rewriteDirective (sns : List (Option String × String)) (d : ImportDirective) :
    Except StitchError ImportDirective :=
  if isFalsy d.schemaLocation then
    match alookup sns d.ns with
    | some tok => .ok { d with schemaLocation := some tok }
    | none => .error (.keyError d.ns)
  else .ok d

def rewriteAll (sns : List (Option String × String)) :
    List ImportDirective → Except StitchError (List ImportDirective)
  | [] => .ok []
  | d :: ds =>
    match rewriteDirective sns d with
    | .error e => .error e
    | .ok d' =>
      match rewriteAll sns ds with
      | .error e => .error e
      | .ok ds' => .ok (d' :: ds')

/-- The fresh `xsd:import` element created for fragment `i`
(wsdl.py:302-306): `schemaLocation` is the synthetic token; the
`namespace` attribute is set only when the fragment's `targetNamespace`
is truthy. -/
def syntheticDirective (i : Nat) (f : SchemaFragment) : ImportDirective :=
  { schemaLocation := some (intName i),
    ns := if isFalsy f.targetNamespace then none else f.targetNamespace }

/-- Children appended to the container for fragment `i`: its synthetic import,
then its own (rewritten or copied) import directives in order
(wsdl.py:299-316). -/
def stitchOne (sns : List (Option String × String)) (i : Nat) (f : SchemaFragment) :
    Except StitchError (List ImportDirective) :=
  match rewriteAll sns f.imports with
  | .error e => .error e
  | .ok ds => .ok (syntheticDirective i f :: ds)

def buildContainer (sns : List (Option String × String)) :
    Nat → List SchemaFragment → Except StitchError (List ImportDirective)
  | _, [] => .ok []
  | i, f :: rest =>
    match stitchOne sns i f with
    | .error e => .error e
    | .ok ds =>
      match buildContainer sns (i + 1) rest with
      | .error e => .error e
      | .ok L => .ok (ds ++ L)

/-- The XML node a `Schema` object was built from. -/
inductive SchemaNode where
  /-- a bare schema document fetched by an import (identified by the
  loader-supplied document id) -/
  | fromDoc (docId : Nat)
  /-- the single inline fragment of the one-fragment case -/
  | fromFragment (f : SchemaFragment)
  /-- the synthetic container of the multi-fragment case -/
  | fromContainer (ds : List ImportDirective)
  /-- `Schema(None, ...)`: no node at all -/
  | noNode
deriving DecidableEq

/-- The external `zeep.xsd.Schema` object, modelled at its interface
boundary: the node it was built from, the `location` it was given and its
`is_empty` verdict (externally determined; `Schema(None, ...)` is empty,
a stitched container is treated as non-empty). -/
structure SchemaObj where
  node : SchemaNode
  location : String
  is_empty : Bool
deriving DecidableEq

/-- `Schema(None, transport, location, parser_context, location)`. -/
def SchemaObj.emptyAt (loc : String) : SchemaObj :=
  { node := .noNode, location := loc, is_empty := true }

/-- `Definition.parse_types` (wsdl.py:236-321) on the list of
`xsd:schema` fragments found under `wsdl:types`.  Zero fragments: no
schema.  One fragment: wrap it directly (the re-parse through
`etree.tostring` at wsdl.py:269-272 reproduces the same fragment and is
the identity here).  Two or more: build the synthetic container. -/
def parse_types (loc : String) (fs : List SchemaFragment) :
    Except StitchError (Option SchemaObj) :=
  match fs with
  | [] => .ok none
  | [f] => .ok (some { node := .fromFragment f, location := loc, is_empty := f.schemaEmpty })
  | _ =>
    match buildContainer (schemaNs fs) 0 fs with
    | .error e => .error e
    | .ok L => .ok (some { node := .fromContainer L, location := loc, is_empty := false })

/-! ### The Definition record (`Definition.__init__`, wsdl.py:128-152)

Definitions form a possibly cyclic graph; following the registry design
of the source, they live in an arena (allocation-ordered list) and refer
to each other by arena index.
-/

structure Definition where
  target_namespace : Option String
  location : String
  schema : Option SchemaObj
  messages : List (String × Entity)
  port_types : List (String × Entity)
  bindings : List (String × Entity)
  services : List (String × Entity)
  /-- `self.imports`: namespace → arena index of the imported Definition,
  in import-declaration order -/
  importsMap : List (Option String × Nat)
  /-- `self._resolved_imports` -/
  resolved_imports : Bool
  /-- instrumentation: how many times the table-resolution loops of
  `resolve_imports` (wsdl.py:190-200) ran on this Definition; stands for
  the side effects of the external `.resolve(self)` calls -/
  resolveRuns : Nat
deriving DecidableEq

/-- A freshly constructed Definition, after the field initialisation of
`__init__` (wsdl.py:132-143) and before import/types/table parsing. -/
def Definition.blank (tns : Option String) (loc : String) : Definition :=
  { target_namespace := tns, location := loc, schema := none,
    messages := [], port_types := [], bindings := [], services := [],
    importsMap := [], resolved_imports := false, resolveRuns := 0 }

/-- The table names `Definition.get` is used with (the `name` argument of
`getattr(self, name)`). -/
inductive TableName where
  | messages
  | port_types
  | bindings
  | services
deriving DecidableEq

def TableName.attr : TableName → String
  | .messages => "messages"
  | .port_types => "port_types"
  | .bindings => "bindings"
  | .services => "services"

def Definition.table (d : Definition) : TableName → List (String × Entity)
  | .messages => d.messages
  | .port_types => d.port_types
  | .bindings => d.bindings
  | .services => d.services

/-- The loop over `self.imports.values()` in `Definition.get`
(wsdl.py:162-165): first import whose table has the key wins.  An index
that misses the arena corresponds to no Python object and contributes
nothing (unreachable for arenas built by the parser). -/
def getImportsLoop (arena : List Definition) (name : TableName) (key : String) :
    List (Option String × Nat) → Option Entity
  | [] => none
  | (_, j) :: rest =>
    match arena[j]? with
    | none => getImportsLoop arena name key rest
    | some d =>
      match alookup (d.table name) key with
      | some v => some v
      | none => getImportsLoop arena name key rest

/-- `Definition.get` (wsdl.py:157-166): own table first, then each direct import
in declaration order, else `IndexError("No definition %r found" %
name)` (the `%r` quoting of the table name is dropped here). -/
def Definition.get (arena : List Definition) (d : Definition) (name : TableName)
    (key : String) : Except String Entity :=
  match alookup (d.table name) key with
  | some v => .ok v
  | none =>
    match getImportsLoop arena name key d.importsMap with
    | some v => .ok v
    | none => .error ("No definition " ++ name.attr ++ " found")

/-! ### Parse phase (`Definition.__init__` / `Definition.parse_imports`,
wsdl.py:128-152 and 202-234)

The universe of loadable documents is a `World`: location → `RawDoc`.
The builder state carries the Document-owned registry
(`self.wsdl._definitions`), the arena of constructed Definitions and two
instrumentation logs (loader fetches and Definition constructions).
-/

/-- One parsed XML document, reduced to the attributes `Definition` reads:
its `targetNamespace`, whether its root element is a bare `schema`
fragment (the `etree.QName(document.tag).localname == 'schema'` test),
its `wsdl:import` declarations as (location, namespace-attribute) pairs
in document order, its inline `wsdl:types` schema fragments and its
locally declared tables.  For a bare-schema document, `schemaId` and
`schemaEmpty` describe the `Schema` object the external type system
builds from it. -/
structure RawDoc where
  targetNamespace : Option String
  rootIsSchema : Bool
  schemaId : Nat
  schemaEmpty : Bool
  importDecls : List (String × Option String)
  types : List SchemaFragment
  messages : List (String × Entity)
  port_types : List (String × Entity)
  bindingNodes : List BindingNode
  services : List (String × Entity)
deriving DecidableEq

abbrev World : Type := List (String × RawDoc)

structure PState where
  /-- `self.wsdl._definitions`: target namespace → arena index -/
  registry : List (Option String × Nat)
  arena : List Definition
  /-- instrumentation: locations fetched through `_load_content`, in order -/
  loads : List String
  /-- instrumentation: target namespaces of the Definitions constructed, in
  construction order -/
  parses : List (Option String)
deriving DecidableEq

def PState.empty : PState := { registry := [], arena := [], loads := [], parses := [] }

inductive PResult where
  | ok (st : PState)
  /-- `_load_content` failed: the location is not in the world -/
  | loadFail (loc : String)
  /-- the unguarded `schema_ns[...]` lookup in `parse_types` raised -/
  | stitchFail (e : StitchError)
  /-- artefact of the fuelled embedding, never reached with enough fuel -/
  | outOfFuel
deriving DecidableEq

/-- Replace the Definition at arena index `i` (the Python objects are
mutated in place; the arena index is the object identity). -/
def updDef (st : PState) (i : Nat) (f : Definition → Definition) : PState :=
  match st.arena[i]? with
  | some d => { st with arena := st.arena.set i (f d) }
  | none => st

/-- The loop body of `Definition.parse_imports` (wsdl.py:218-234), for the
Definition at arena index `selfIdx`.  `recurse` is the nested
`Definition(self.wsdl, document, location)` construction.  Per import
declaration: a namespace already in the registry is linked directly (no
load); otherwise the location is fetched, a bare-schema document becomes
this Definition's own `schema` (and is not recorded in `imports`), and any
other document is recursively constructed and then linked under the
declared namespace.  `absolute_location` is the identity on the location
strings of the model. -/
def parseLoop (world : World) (recurse : RawDoc → String → PState → PResult)
    (selfIdx : Nat) : List (String × Option String) → PState → PResult
  | [], st => .ok st
  | (loc, ns) :: rest, st =>
    match alookup st.registry ns with
    | some j =>
      parseLoop world recurse selfIdx rest
        (updDef st selfIdx (fun d => { d with importsMap := assocSet d.importsMap ns j }))
    | none =>
      match alookup world loc with
      | none => .loadFail loc
      | some doc2 =>
        let st1 : PState := { st with loads := st.loads ++ [loc] }
        if doc2.rootIsSchema then
          parseLoop world recurse selfIdx rest
            (updDef st1 selfIdx (fun d =>
              { d with schema := some { node := .fromDoc doc2.schemaId, location := loc,
                                        is_empty := doc2.schemaEmpty } }))
        else
          let j := st1.arena.length
          match recurse doc2 loc st1 with
          | .ok st2 =>
            parseLoop world recurse selfIdx rest
              (updDef st2 selfIdx (fun d => { d with importsMap := assocSet d.importsMap ns j }))
          | e => e

/-- `Definition.__init__` (wsdl.py:128-152), fuelled against cyclic import
graphs.  It allocates the new Definition, registers it in the Document
registry under its target namespace BEFORE parsing the import
declarations, runs the import loop, and then assigns the
types/messages/port_types/bindings/services parses — in particular
`self.schema = self.parse_types(doc)` (wsdl.py:148) is an unconditional
assignment that follows `parse_imports`. -/
def parseDef : Nat → World → RawDoc → String → PState → PResult
  | 0, _, _, _, _ => .outOfFuel
  | fuel + 1, world, doc, loc, st =>
    let idx := st.arena.length
    let st1 : PState :=
      { registry := assocSet st.registry doc.targetNamespace idx,
        arena := st.arena ++ [Definition.blank doc.targetNamespace loc],
        loads := st.loads,
        parses := st.parses ++ [doc.targetNamespace] }
    match parseLoop world (fun d l s => parseDef fuel world d l s) idx doc.importDecls st1 with
    | .ok st2 =>
      match parse_types loc doc.types with
      | .error e => .stitchFail e
      | .ok sch =>
        .ok (updDef st2 idx (fun d =>
          { d with schema := sch,
                   messages := mkTable doc.messages,
                   port_types := mkTable doc.port_types,
                   bindings := parse_binding doc.bindingNodes,
                   services := mkTable doc.services }))
    | e => e

/-! ### Resolve phase (`Definition.resolve_imports`, wsdl.py:168-200) -/

/-- The schema-adoption loop body (wsdl.py:179-181): iterate over the imported
Definitions, and whenever one has a non-empty schema, assign it
to `self.schema`.  There is no `break`, so the loop keeps the LAST such
assignment — and, the loop never breaking, Python's `for`/`else` clause
at wsdl.py:182-185 afterwards always runs. -/
def adoptionLoop (arena : List Definition) :
    List (Option String × Nat) → Option SchemaObj → Option SchemaObj
  | [], acc => acc
  | (_, j) :: rest, acc =>
    match arena[j]? with
    | none => adoptionLoop arena rest acc
    | some d =>
      match d.schema with
      | some s => if s.is_empty then adoptionLoop arena rest acc
                  else adoptionLoop arena rest (some s)
      | none => adoptionLoop arena rest acc

/-- The recursion `for definition in self.imports.values():
definition.resolve_imports()` (wsdl.py:187-188). -/
def resolveList (recurse : List Definition → Nat → Option (List Definition)) :
    List (Option String × Nat) → List Definition → Option (List Definition)
  | [], arena => some arena
  | (_, j) :: rest, arena =>
    match recurse arena j with
    | none => none
    | some arena' => resolveList recurse rest arena'

/-- The schema-adoption step of `resolve_imports` (wsdl.py:176-185),
applied to the arena after the `_resolved_imports` flag of `d1` (the
Definition at index `i`) has been set.  When the Definition has no schema
of its own the adoption loop runs — but its result is dead code: the
`for` has no `break`, so Python's `else` clause always runs afterwards
and overwrites `self.schema` with a fresh empty `Schema` scoped to
`self.location`. -/
def adoptedArena (arena : List Definition) (i : Nat) (d1 : Definition) : List Definition :=
  if d1.schema = none then
    let _deadLoopValue := adoptionLoop (arena.set i d1) d1.importsMap none
    (arena.set i d1).set i { d1 with schema := some (SchemaObj.emptyAt d1.location) }
  else arena.set i d1

/-- The table-resolution loops of `resolve_imports` (wsdl.py:190-200) on
the Definition at index `i`: the external `.resolve(self)` calls are
modelled by bumping its `resolveRuns` event counter. -/
def resolveFinish (arena : List Definition) (i : Nat) : List Definition :=
  match arena[i]? with
  | some e => arena.set i { e with resolveRuns := e.resolveRuns + 1 }
  | none => arena

/-- The body of `resolve_imports` past the guard (wsdl.py:174-200): set
the flag, run the schema-adoption step, recurse into every direct import
in declaration order, then resolve the local tables. -/
def resolveBody (recurse : List Definition → Nat → Option (List Definition))
    (arena : List Definition) (i : Nat) (d : Definition) : Option (List Definition) :=
  match resolveList recurse d.importsMap
      (adoptedArena arena i { d with resolved_imports := true }) with
  | none => none
  | some a3 => some (resolveFinish a3 i)

/-- `Definition.resolve_imports` (wsdl.py:168-200) on the Definition at
arena index `i`, fuelled against cyclic import graphs: the
`_resolved_imports` guard returns immediately, otherwise the body runs.
An index outside the arena denotes no Python object; it resolves to
nothing (unreachable for arenas built by the parser). -/
def resolveImports : Nat → List Definition → Nat → Option (List Definition)
  | 0, _, _ => none
  | fuel + 1, arena, i =>
    match arena[i]? with
    | none => some arena
    | some d =>
      if d.resolved_imports then some arena
      else resolveBody (fun a j => resolveImports fuel a j) arena i d

/-! ### Well-formedness of a world, and size measures -/

/-- Namespace coherence of the import declarations of one document: an import
declaration whose location resolves in the world declares exactly
the target namespace of the document it resolves to (the well-formed WSDL
situation the registry keying relies on). -/
def docImportsCoherent (world : World) (doc : RawDoc) : Bool :=
  doc.importDecls.all fun p =>
    match alookup world p.1 with
    | some d => decide (d.targetNamespace = p.2)
    | none => true

/-- Namespace coherence of every document of the world. -/
def coherentWorld (world : World) : Bool :=
  world.all fun q => docImportsCoherent world q.2

/-- The distinct target namespaces occurring in the world. -/
def worldNS (world : World) : List (Option String) :=
  (world.map (fun p => p.2.targetNamespace)).dedup

/-- Number of world namespaces not yet registered. -/
def unregCount (world : World) (ks : List (Option String)) : Nat :=
  ((worldNS world).filter (fun ns => decide (ns ∉ ks))).length

/-- Number of arena Definitions whose `_resolved_imports` flag is still
false. -/
def unresolvedCount (arena : List Definition) : Nat :=
  (arena.filter (fun d => !d.resolved_imports)).length

/-- The `_resolved_imports` flag of the Definition at arena index `j`
(an index with no Definition behind it has nothing left to resolve). -/
def resolvedAt (arena : List Definition) (j : Nat) : Bool :=
  match arena[j]? with
  | some d => d.resolved_imports
  | none => true

/-! ### Concrete instances used by the witnesses and counterexamples -/

/-- A non-empty schema owned by an imported Definition. -/
def schemaB : SchemaObj := { node := .fromDoc 9, location := "locB", is_empty := false }

/-- A Definition without a schema of its own, importing `defnB`. -/
def defnA : Definition :=
  { Definition.blank (some "A") "locA" with importsMap := [(some "B", 1)] }

/-- A Definition owning the non-empty `schemaB`, importing `defnA` back
(a two-cycle). -/
def defnB : Definition :=
  { Definition.blank (some "B") "locB" with
    schema := some schemaB, importsMap := [(some "A", 0)] }

def arenaAB : List Definition := [defnA, defnB]

/-- The arena `resolveImports` produces from `arenaAB` at index 0. -/
def defnA' : Definition :=
  { defnA with
    resolved_imports := true, schema := some (SchemaObj.emptyAt "locA"), resolveRuns := 1 }

def defnB' : Definition :=
  { defnB with resolved_imports := true, resolveRuns := 1 }

def arenaAB' : List Definition := [defnA', defnB']

/-- A loadable document whose root element is a bare schema fragment. -/
def schemaDocS : RawDoc :=
  { targetNamespace := some "S", rootIsSchema := true, schemaId := 5,
    schemaEmpty := false, importDecls := [], types := [], messages := [],
    port_types := [], bindingNodes := [], services := [] }

/-- A WSDL root document importing the bare schema document, with no
inline `wsdl:types` of its own. -/
def docRootC6 : RawDoc :=
  { targetNamespace := some "R", rootIsSchema := false, schemaId := 0,
    schemaEmpty := true, importDecls := [("sloc", some "S")], types := [],
    messages := [], port_types := [], bindingNodes := [], services := [] }

def worldC6 : World := [("sloc", schemaDocS)]

/-- The state of the `docRootC6` construction right after registration,
when `parse_imports` starts (wsdl.py:146). -/
def st1C6 : PState :=
  { registry := [(some "R", 0)], arena := [Definition.blank (some "R") "rloc"],
    loads := [], parses := [some "R"] }

/-- The state of the `docRootC6` construction right after its import
loop: the imported bare schema sits in the schema field, the imports map
is empty. -/
def defnC6mid : Definition :=
  { Definition.blank (some "R") "rloc" with
    schema := some { node := .fromDoc 5, location := "sloc", is_empty := false } }

def st2C6 : PState :=
  { registry := [(some "R", 0)], arena := [defnC6mid],
    loads := ["sloc"], parses := [some "R"] }

/-- The state after the `docRootC6` construction completes: the schema
field has been overwritten with the (null) types-parse result. -/
def stC6final : PState :=
  { registry := [(some "R", 0)],
    arena := [Definition.blank (some "R") "rloc"],
    loads := ["sloc"], parses := [some "R"] }

/-- The state produced by parsing the three-document cycle below from
its root `wdocA`. -/
def stCycle3 : PState :=
  { registry := [(some "A", 0), (some "B", 1), (some "C", 2)],
    arena :=
      [{ Definition.blank (some "A") "locA" with importsMap := [(some "B", 1)] },
       { Definition.blank (some "B") "locB" with importsMap := [(some "C", 2)] },
       { Definition.blank (some "C") "locC" with importsMap := [(some "A", 0)] }],
    loads := ["locB", "locC"],
    parses := [some "A", some "B", some "C"] }

/-- Three documents importing each other in a cycle A → B → C → A. -/
def wdocA : RawDoc :=
  { targetNamespace := some "A", rootIsSchema := false, schemaId := 0,
    schemaEmpty := true, importDecls := [("locB", some "B")], types := [],
    messages := [], port_types := [], bindingNodes := [], services := [] }

def wdocB : RawDoc :=
  { targetNamespace := some "B", rootIsSchema := false, schemaId := 0,
    schemaEmpty := true, importDecls := [("locC", some "C")], types := [],
    messages := [], port_types := [], bindingNodes := [], services := [] }

def wdocC : RawDoc :=
  { targetNamespace := some "C", rootIsSchema := false, schemaId := 0,
    schemaEmpty := true, importDecls := [("locA", some "A")], types := [],
    messages := [], port_types := [], bindingNodes := [], services := [] }

def worldCycle3 : World := [("locA", wdocA), ("locB", wdocB), ("locC", wdocC)]

/-! ## Lemma layer: association lists and counting -/

theorem alookup_assocSet_self {α β : Type} [DecidableEq α] (l : List (α × β)) (k : α) (v : β) :
    alookup (assocSet l k v) k = some v := by
  induction l with
  | nil => simp [assocSet, alookup]
  | cons p rest ih =>
    obtain ⟨a, b⟩ := p
    by_cases h : a = k
    · simp [assocSet, h, alookup]
    · simp [assocSet, h, alookup, ih]

theorem keysOf_cons {α β : Type} (a : α) (b : β) (l : List (α × β)) :
    keysOf ((a, b) :: l) = a :: keysOf l := rfl

theorem alookup_assocSet_ne {α β : Type} [DecidableEq α] (l : List (α × β)) (k k' : α) (v : β)
    (h : k' ≠ k) : alookup (assocSet l k v) k' = alookup l k' := by
  have hkk : ¬ k = k' := fun he => h he.symm
  induction l with
  | nil => simp [assocSet, alookup, hkk]
  | cons p rest ih =>
    obtain ⟨a, b⟩ := p
    by_cases ha : a = k
    · subst ha
      simp [assocSet, alookup, hkk]
    · simp only [assocSet, if_neg ha, alookup]
      by_cases hk' : a = k' <;> simp [hk', ih]

theorem alookup_eq_none {α β : Type} [DecidableEq α] (l : List (α × β)) (k : α) :
    alookup l k = none ↔ k ∉ keysOf l := by
  induction l with
  | nil => simp [alookup, keysOf]
  | cons p rest ih =>
    obtain ⟨a, b⟩ := p
    by_cases h : a = k
    · subst h
      simp [alookup, keysOf_cons]
    · have h' : ¬ k = a := fun he => h he.symm
      simp [alookup, keysOf_cons, h, h', ih]

theorem mem_keysOf_assocSet {α β : Type} [DecidableEq α] (l : List (α × β)) (k : α) (v : β)
    (a : α) : a ∈ keysOf (assocSet l k v) ↔ a = k ∨ a ∈ keysOf l := by
  induction l with
  | nil => simp [assocSet, keysOf]
  | cons p rest ih =>
    obtain ⟨x, y⟩ := p
    by_cases h : x = k
    · subst h
      simp [assocSet, keysOf_cons, List.mem_cons]
    · simp only [assocSet, if_neg h, keysOf_cons, List.mem_cons, ih]
      tauto

theorem alookup_mem {α β : Type} [DecidableEq α] (l : List (α × β)) (k : α) (v : β)
    (h : alookup l k = some v) : (k, v) ∈ l := by
  induction l with
  | nil => simp [alookup] at h
  | cons p rest ih =>
    obtain ⟨a, b⟩ := p
    by_cases ha : a = k
    · subst ha
      simp [alookup] at h
      simp [h]
    · simp only [alookup, if_neg ha] at h
      exact List.mem_cons_of_mem _ (ih h)

theorem getElem?_set_self' {α : Type} (l : List α) (i : Nat) (a : α) (h : i < l.length) :
    (l.set i a)[i]? = some a := by
  induction l generalizing i with
  | nil => simp at h
  | cons x t ih =>
    cases i with
    | zero => simp
    | succ j => simpa using ih j (by simpa using h)

theorem getElem?_set_ne' {α : Type} (l : List α) (i j : Nat) (a : α) (h : i ≠ j) :
    (l.set i a)[j]? = l[j]? := by
  induction l generalizing i j with
  | nil => simp
  | cons x t ih =>
    cases i with
    | zero =>
      cases j with
      | zero => exact absurd rfl h
      | succ j' => simp
    | succ i' =>
      cases j with
      | zero => simp
      | succ j' => simpa using ih i' j' (by omega)

theorem lt_of_getElem?_some {α : Type} (l : List α) (i : Nat) (d : α) (h : l[i]? = some d) :
    i < l.length := by
  induction l generalizing i with
  | nil => simp at h
  | cons x t ih =>
    cases i with
    | zero => simp
    | succ j =>
      have := ih j (by simpa using h)
      simp only [List.length_cons]
      omega

theorem filter_length_mono {α : Type} (l : List α) (p q : α → Bool)
    (h : ∀ a ∈ l, p a = true → q a = true) :
    (l.filter p).length ≤ (l.filter q).length := by
  induction l with
  | nil => simp
  | cons a t ih =>
    have ht : ∀ x ∈ t, p x = true → q x = true := fun x hx => h x (List.mem_cons_of_mem _ hx)
    cases hp : p a with
    | false =>
      cases hq : q a with
      | false => simpa [List.filter_cons, hp, hq] using ih ht
      | true =>
        simp only [List.filter_cons, hp, hq, if_neg, List.length_cons]
        simp only [Bool.false_eq_true, if_false, if_true]
        exact Nat.le_succ_of_le (ih ht)
    | true =>
      have hq : q a = true := h a (List.mem_cons_self _ _) hp
      simpa [List.filter_cons, hp, hq] using ih ht

theorem filter_length_lt {α : Type} (l : List α) (p q : α → Bool) (x : α)
    (hx : x ∈ l) (hpx : p x = false) (hqx : q x = true)
    (h : ∀ a ∈ l, p a = true → q a = true) :
    (l.filter p).length < (l.filter q).length := by
  induction l with
  | nil => simp at hx
  | cons a t ih =>
    have ht : ∀ y ∈ t, p y = true → q y = true := fun y hy => h y (List.mem_cons_of_mem _ hy)
    rcases List.mem_cons.mp hx with rfl | hxt
    · simp only [List.filter_cons, hpx, hqx, Bool.false_eq_true, if_false, if_true,
        List.length_cons]
      exact Nat.lt_succ_of_le (filter_length_mono t p q ht)
    · cases hp : p a with
      | false =>
        cases hq : q a with
        | false => simpa [List.filter_cons, hp, hq] using ih hxt ht
        | true =>
          simp only [List.filter_cons, hp, hq, Bool.false_eq_true, if_false, if_true,
            List.length_cons]
          exact Nat.lt_succ_of_le (Nat.le_of_lt (ih hxt ht))
      | true =>
        have hq : q a = true := h a (List.mem_cons_self _ _) hp
        simpa [List.filter_cons, hp, hq] using ih hxt ht

theorem unregCount_mono (w : World) (ks ks' : List (Option String))
    (h : ∀ a, a ∈ ks → a ∈ ks') : unregCount w ks' ≤ unregCount w ks := by
  apply filter_length_mono
  intro a _ ha
  simp only [decide_eq_true_eq] at *
  exact fun hk => ha (h a hk)

theorem unregCount_congr (w : World) (ks ks' : List (Option String))
    (h : ∀ a, a ∈ ks ↔ a ∈ ks') : unregCount w ks = unregCount w ks' :=
  Nat.le_antisymm (unregCount_mono w ks' ks fun a ha => (h a).mpr ha)
    (unregCount_mono w ks ks' fun a ha => (h a).mp ha)

theorem unregCount_strict (w : World) (ks ks' : List (Option String)) (ns : Option String)
    (hns : ns ∈ worldNS w) (hnotin : ns ∉ ks) (hin : ns ∈ ks')
    (h : ∀ a ∈ ks, a ∈ ks') : unregCount w ks' < unregCount w ks := by
  apply filter_length_lt _ _ _ ns hns
  · simp [hin]
  · simp [hnotin]
  · intro a _ ha
    simp only [decide_eq_true_eq] at *
    exact fun hk => ha (h a hk)

theorem unregCount_le (w : World) (ks : List (Option String)) :
    unregCount w ks ≤ (worldNS w).length :=
  List.length_filter_le _ _

theorem unresolvedCount_cons (x : Definition) (t : List Definition) :
    unresolvedCount (x :: t) =
      (if x.resolved_imports then 0 else 1) + unresolvedCount t := by
  cases h : x.resolved_imports
  · simp [unresolvedCount, List.filter_cons, h]
    omega
  · simp [unresolvedCount, List.filter_cons, h]

theorem unresolvedCount_le_length (a : List Definition) : unresolvedCount a ≤ a.length :=
  List.length_filter_le _ _

theorem unresolvedCount_set_eq (a : List Definition) (i : Nat) (d e : Definition)
    (hget : a[i]? = some d) (hd : d.resolved_imports = true) (he : e.resolved_imports = true) :
    unresolvedCount (a.set i e) = unresolvedCount a := by
  induction a generalizing i with
  | nil => simp at hget
  | cons x t ih =>
    cases i with
    | zero =>
      simp only [List.getElem?_cons_zero, Option.some.injEq] at hget
      subst hget
      simp [unresolvedCount_cons, hd, he]
    | succ j =>
      simp only [List.getElem?_cons_succ] at hget
      simp [List.set, unresolvedCount_cons, ih j hget]

theorem unresolvedCount_set_dec (a : List Definition) (i : Nat) (d e : Definition)
    (hget : a[i]? = some d) (hd : d.resolved_imports = false) (he : e.resolved_imports = true) :
    unresolvedCount (a.set i e) + 1 = unresolvedCount a := by
  induction a generalizing i with
  | nil => simp at hget
  | cons x t ih =>
    cases i with
    | zero =>
      simp only [List.getElem?_cons_zero, Option.some.injEq] at hget
      subst hget
      simp [unresolvedCount_cons, hd, he]
      omega
    | succ j =>
      simp only [List.getElem?_cons_succ] at hget
      have := ih j hget
      simp only [List.set, unresolvedCount_cons]
      omega


/-! ## Qualified lookup (claims C4, C5, C9) -/

theorem getImportsLoop_none (arena : List Definition) (name : TableName) (key : String)
    (l : List (Option String × Nat))
    (h : ∀ q ∈ l, ∀ e, arena[q.2]? = some e → alookup (e.table name) key = none) :
    getImportsLoop arena name key l = none := by
  induction l with
  | nil => rfl
  | cons q rest ih =>
    obtain ⟨ns, j⟩ := q
    have hrest := ih fun p hp => h p (List.mem_cons_of_mem _ hp)
    simp only [getImportsLoop]
    cases hj : arena[j]? with
    | none => exact hrest
    | some e => simp [h (ns, j) (List.mem_cons_self _ _) e hj, hrest]

theorem getImportsLoop_append_hit (arena : List Definition) (name : TableName) (key : String)
    (pre : List (Option String × Nat)) (pns : Option String) (pj : Nat)
    (post : List (Option String × Nat)) (e : Definition) (v : Entity)
    (hpre : ∀ q ∈ pre, ∀ e', arena[q.2]? = some e' → alookup (e'.table name) key = none)
    (hp : arena[(pns, pj).2]? = some e) (hv : alookup (e.table name) key = some v) :
    getImportsLoop arena name key (pre ++ (pns, pj) :: post) = some v := by
  induction pre with
  | nil =>
    simp only [List.nil_append, getImportsLoop]
    rw [hp]
    simp [hv]
  | cons q qrest ih =>
    obtain ⟨qns, qj⟩ := q
    have hq := hpre (qns, qj) (List.mem_cons_self _ _)
    have hrest := ih fun r hr => hpre r (List.mem_cons_of_mem _ hr)
    simp only [List.cons_append, getImportsLoop]
    cases hj : arena[qj]? with
    | none => exact hrest
    | some e' => simp [hq e' hj, hrest]

/-- C4: `Definition.get` returns the entry of the Definition's own table
when the key is present there; otherwise it returns the entry of the
first directly imported Definition, in import-declaration order, whose
table has the key.  The first conjunct in particular makes a local entry
shadow any imported entry under the same key. -/
theorem claim4_lookup_local_then_imports :
    ∀ (arena : List Definition) (d : Definition) (name : TableName) (key : String),
    (∀ v, alookup (d.table name) key = some v →
      Definition.get arena d name key = .ok v) ∧
    (alookup (d.table name) key = none →
      ∀ pre p post (e : Definition) (v : Entity), d.importsMap = pre ++ p :: post →
        (∀ q ∈ pre, ∀ e', arena[q.2]? = some e' → alookup (e'.table name) key = none) →
        arena[p.2]? = some e → alookup (e.table name) key = some v →
        Definition.get arena d name key = .ok v) := by
  intro arena d name key
  constructor
  · intro v hv
    simp [Definition.get, hv]
  · intro hnone pre p post e v himp hpre hp hv
    obtain ⟨pns, pj⟩ := p
    simp only [Definition.get, hnone]
    rw [himp, getImportsLoop_append_hit arena name key pre pns pj post e v hpre hp hv]

/-- C4 witness: a Definition declaring "m" locally while also importing a
Definition declaring "m" yields its own entry. -/
theorem claim4_witness :
    Definition.get [{ Definition.blank (some "B") "locB" with
        messages := [("m", Entity.obj 2)] }]
      { Definition.blank (some "A") "locA" with
        messages := [("m", Entity.obj 1)], importsMap := [(some "B", 0)] }
      .messages "m" = .ok (Entity.obj 1) :=
  (claim4_lookup_local_then_imports _ _ .messages "m").1 (Entity.obj 1) (by decide)

/-- C5: the qualified lookup is non-transitive.  With A importing B, B importing
C and the key declared only in C's table, `get` on A fails
while `get` on B succeeds; imports of imports are never searched. -/
theorem claim5_lookup_non_transitive :
    ∀ (arena : List Definition) (A B C : Definition) (iB iC : Nat)
      (nsB nsC : Option String) (name : TableName) (key : String) (v : Entity),
    A.importsMap = [(nsB, iB)] → arena[iB]? = some B →
    B.importsMap = [(nsC, iC)] → arena[iC]? = some C →
    alookup (A.table name) key = none → alookup (B.table name) key = none →
    alookup (C.table name) key = some v →
    (∃ e, Definition.get arena A name key = .error e) ∧
    Definition.get arena B name key = .ok v := by
  intro arena A B C iB iC nsB nsC name key v hAimp hB hBimp hC hA hBt hCt
  constructor
  · have h1 : getImportsLoop arena name key A.importsMap = none := by
      rw [hAimp]
      apply getImportsLoop_none
      intro q hq e hqe
      rw [List.mem_singleton] at hq
      subst hq
      rw [hB] at hqe
      cases hqe
      exact hBt
    exact ⟨"No definition " ++ name.attr ++ " found", by simp only [Definition.get, hA, h1]⟩
  · simp only [Definition.get, hBt, hBimp, getImportsLoop]
    rw [hC]
    simp [hCt]

/-- C5 witness: key "m" lives only in C; lookup fails from A, succeeds
from B. -/
theorem claim5_witness :
    (∃ e, Definition.get
      [{ Definition.blank (some "B") "locB" with importsMap := [(some "C", 1)] },
       { Definition.blank (some "C") "locC" with messages := [("m", Entity.obj 7)] }]
      { Definition.blank (some "A") "locA" with importsMap := [(some "B", 0)] }
      .messages "m" = .error e) ∧
    Definition.get
      [{ Definition.blank (some "B") "locB" with importsMap := [(some "C", 1)] },
       { Definition.blank (some "C") "locC" with messages := [("m", Entity.obj 7)] }]
      { Definition.blank (some "B") "locB" with importsMap := [(some "C", 1)] }
      .messages "m" = .ok (Entity.obj 7) :=
  claim5_lookup_non_transitive _ _
    { Definition.blank (some "B") "locB" with importsMap := [(some "C", 1)] }
    { Definition.blank (some "C") "locC" with messages := [("m", Entity.obj 7)] }
    0 1 (some "B") (some "C") .messages "m" (Entity.obj 7)
    rfl rfl rfl rfl rfl rfl rfl

/-- C9 counterexample: the claim says the NotFound failure carries both
the table name and the key; but two failing lookups under different keys
produce the very same error value (`IndexError("No definition %r found" %
name)` interpolates only the table name), so the error cannot carry the
key. -/
theorem claim9_counterexample :
    Definition.get [] (Definition.blank none "loc") .messages "GetPriceRequest" =
      Definition.get [] (Definition.blank none "loc") .messages "GetPriceResponse" ∧
    Definition.get [] (Definition.blank none "loc") .messages "GetPriceRequest" =
      .error "No definition messages found" ∧
    "GetPriceRequest" ≠ "GetPriceResponse" := ⟨rfl, rfl, by decide⟩

/-- C9 (amended): when the key is absent from the Definition's own table
and from every directly imported Definition's table, `get` fails with a
NotFound failure that carries the table name only — the looked-up key is
not part of the error. -/
theorem claim9_notfound_names_table_only :
    ∀ (arena : List Definition) (d : Definition) (name : TableName) (key : String),
    alookup (d.table name) key = none →
    (∀ q ∈ d.importsMap, ∀ e, arena[q.2]? = some e → alookup (e.table name) key = none) →
    Definition.get arena d name key = .error ("No definition " ++ name.attr ++ " found") := by
  intro arena d name key hown himp
  simp only [Definition.get, hown, getImportsLoop_none arena name key d.importsMap himp]

/-- C9 witness: a concrete failing lookup produces the table-name-only
error. -/
theorem claim9_witness :
    Definition.get [] (Definition.blank none "loc") .port_types "Missing" =
      .error "No definition port_types found" :=
  claim9_notfound_names_table_only [] (Definition.blank none "loc") .port_types "Missing"
    rfl (by simp [Definition.blank])

/-! ## Binding classification (claim C7) -/

theorem parse_binding_foldl (nodes : List BindingNode) (acc : List (String × Entity)) :
    nodes.foldl
      (fun acc n =>
        match classifyBinding n with
        | some b => assocSet acc b.name (Entity.binding b)
        | none => acc) acc =
    (nodes.filterMap
      (fun n => (classifyBinding n).map (fun b => (b.name, Entity.binding b)))).foldl
      (fun acc p => assocSet acc p.1 p.2) acc := by
  induction nodes generalizing acc with
  | nil => rfl
  | cons n rest ih =>
    cases hc : classifyBinding n with
    | none => simp [List.filterMap_cons, hc, ih]
    | some b => simp [List.filterMap_cons, hc, ih]

/-- C7: binding classification tries SOAP 1.1, SOAP 1.2, HTTP GET, HTTP
POST in that fixed order and the first structural match fixes the parsed
binding's kind; a node matched by no classifier yields no binding and no
error; and the bindings table is exactly the classified nodes, keyed by
name (later declarations overwriting earlier ones of the same name, as
for a `dict`). -/
theorem claim7_binding_classification :
    (∀ n : BindingNode, n.soap11 = true →
      classifyBinding n = some ⟨n.name, .soap11⟩) ∧
    (∀ n : BindingNode, n.soap11 = false → n.soap12 = true →
      classifyBinding n = some ⟨n.name, .soap12⟩) ∧
    (∀ n : BindingNode, n.soap11 = false → n.soap12 = false → n.httpGet = true →
      classifyBinding n = some ⟨n.name, .httpGet⟩) ∧
    (∀ n : BindingNode, n.soap11 = false → n.soap12 = false → n.httpGet = false →
      n.httpPost = true → classifyBinding n = some ⟨n.name, .httpPost⟩) ∧
    (∀ n : BindingNode, n.soap11 = false → n.soap12 = false → n.httpGet = false →
      n.httpPost = false → classifyBinding n = none) ∧
    (∀ nodes : List BindingNode, parse_binding nodes =
      mkTable (nodes.filterMap
        (fun n => (classifyBinding n).map (fun b => (b.name, Entity.binding b))))) := by
  refine ⟨?_, ?_, ?_, ?_, ?_, ?_⟩
  · intro n h
    simp [classifyBinding, h]
  · intro n h1 h2
    simp [classifyBinding, h1, h2]
  · intro n h1 h2 h3
    simp [classifyBinding, h1, h2, h3]
  · intro n h1 h2 h3 h4
    simp [classifyBinding, h1, h2, h3, h4]
  · intro n h1 h2 h3 h4
    simp [classifyBinding, h1, h2, h3, h4]
  · intro nodes
    exact parse_binding_foldl nodes []

/-- C7 witness: a node carrying both the SOAP 1.2 and the HTTP GET
extensibility markers classifies as SOAP 1.2 (order), and a table of one
matched and one unmatched node keeps exactly the matched one. -/
theorem claim7_witness :
    classifyBinding ⟨"b", false, true, true, false⟩ = some ⟨"b", .soap12⟩ ∧
    parse_binding [⟨"b", false, true, true, false⟩, ⟨"c", false, false, false, false⟩] =
      mkTable (List.filterMap
        (fun n => (classifyBinding n).map (fun b => (b.name, Entity.binding b)))
        [⟨"b", false, true, true, false⟩, ⟨"c", false, false, false, false⟩]) :=
  ⟨claim7_binding_classification.2.1 ⟨"b", false, true, true, false⟩ rfl rfl,
   claim7_binding_classification.2.2.2.2.2 _⟩

/-! ## Schema stitching (claims C8, C10) -/

theorem mem_getElem? {α : Type} (l : List α) (a : α) (h : a ∈ l) : ∃ i : Nat, l[i]? = some a := by
  induction l with
  | nil => simp at h
  | cons x t ih =>
    rcases List.mem_cons.mp h with rfl | ht
    · exact ⟨0, by simp⟩
    · obtain ⟨i, hi⟩ := ih ht
      exact ⟨i + 1, by simpa using hi⟩

theorem schemaNsGo_lookup (fs : List SchemaFragment) :
    ∀ (k : Nat) (acc : List (Option String × String)) (ns : Option String) (tok : String),
    alookup (schemaNsGo k fs acc) ns = some tok →
    (∃ i f, fs[i]? = some f ∧ f.targetNamespace = ns ∧ tok = intName (k + i)) ∨
      alookup acc ns = some tok := by
  induction fs with
  | nil => exact fun k acc ns tok h => Or.inr h
  | cons f rest ih =>
    intro k acc ns tok h
    rcases ih (k + 1) (assocSet acc f.targetNamespace (intName k)) ns tok h with
      ⟨i, f', hr, htns, htok⟩ | hacc
    · exact Or.inl ⟨i + 1, f', by simpa using hr, htns, by rw [htok]; congr 1; omega⟩
    · by_cases hns : ns = f.targetNamespace
      · subst hns
        rw [alookup_assocSet_self] at hacc
        cases hacc
        exact Or.inl ⟨0, f, by simp, rfl, by simp⟩
      · rw [alookup_assocSet_ne _ _ _ _ hns] at hacc
        exact Or.inr hacc

theorem schemaNsGo_lookup_none (fs : List SchemaFragment) :
    ∀ (k : Nat) (acc : List (Option String × String)) (ns : Option String),
    (∀ f ∈ fs, f.targetNamespace ≠ ns) →
    alookup (schemaNsGo k fs acc) ns = alookup acc ns := by
  induction fs with
  | nil => exact fun _ _ _ _ => rfl
  | cons f rest ih =>
    intro k acc ns h
    have hne : ns ≠ f.targetNamespace :=
      fun he => h f (List.mem_cons_self _ _) he.symm
    rw [schemaNsGo, ih (k + 1) _ ns (fun f' hf' => h f' (List.mem_cons_of_mem _ hf')),
      alookup_assocSet_ne _ _ _ _ hne]

theorem rewriteDirective_falsy (sns : List (Option String × String)) (d : ImportDirective)
    (tok : String) (hf : isFalsy d.schemaLocation = true) (hl : alookup sns d.ns = some tok) :
    rewriteDirective sns d = .ok { d with schemaLocation := some tok } := by
  simp [rewriteDirective, hf, hl]

theorem rewriteDirective_notfalsy (sns : List (Option String × String)) (d : ImportDirective)
    (hf : isFalsy d.schemaLocation = false) : rewriteDirective sns d = .ok d := by
  simp [rewriteDirective, hf]

theorem rewriteDirective_err (sns : List (Option String × String)) (d : ImportDirective)
    (hf : isFalsy d.schemaLocation = true) (hl : alookup sns d.ns = none) :
    rewriteDirective sns d = .error (.keyError d.ns) := by
  simp [rewriteDirective, hf, hl]

theorem rewriteAll_ok (sns : List (Option String × String)) (ds : List ImportDirective)
    (h : ∀ d ∈ ds, isFalsy d.schemaLocation = true → (alookup sns d.ns).isSome = true) :
    ∃ L, rewriteAll sns ds = .ok L := by
  induction ds with
  | nil => exact ⟨[], rfl⟩
  | cons d rest ih =>
    obtain ⟨L, hL⟩ := ih fun x hx => h x (List.mem_cons_of_mem _ hx)
    cases hf : isFalsy d.schemaLocation with
    | false =>
      exact ⟨d :: L, by simp [rewriteAll, rewriteDirective_notfalsy sns d hf, hL]⟩
    | true =>
      have := h d (List.mem_cons_self _ _) hf
      cases hl : alookup sns d.ns with
      | none => rw [hl] at this; simp at this
      | some tok =>
        exact ⟨{ d with schemaLocation := some tok } :: L,
          by simp [rewriteAll, rewriteDirective_falsy sns d tok hf hl, hL]⟩

theorem rewriteAll_mem (sns : List (Option String × String)) (ds : List ImportDirective)
    (L : List ImportDirective) (h : rewriteAll sns ds = .ok L) :
    ∀ d ∈ ds, ∃ d', rewriteDirective sns d = .ok d' ∧ d' ∈ L := by
  induction ds generalizing L with
  | nil => simp
  | cons d rest ih =>
    intro x hx
    simp only [rewriteAll] at h
    cases hd : rewriteDirective sns d with
    | error e => rw [hd] at h; simp at h
    | ok d' =>
      rw [hd] at h
      cases hr : rewriteAll sns rest with
      | error e => rw [hr] at h; simp at h
      | ok L' =>
        rw [hr] at h
        simp only [Except.ok.injEq] at h
        subst h
        rcases List.mem_cons.mp hx with rfl | hxt
        · exact ⟨d', hd, List.mem_cons_self _ _⟩
        · obtain ⟨y, hy1, hy2⟩ := ih L' hr x hxt
          exact ⟨y, hy1, List.mem_cons_of_mem _ hy2⟩

theorem buildContainer_ok (sns : List (Option String × String)) (fs : List SchemaFragment)
    (h : ∀ f ∈ fs, ∀ d ∈ f.imports,
      isFalsy d.schemaLocation = true → (alookup sns d.ns).isSome = true) :
    ∀ i, ∃ L, buildContainer sns i fs = .ok L := by
  induction fs with
  | nil => exact fun i => ⟨[], rfl⟩
  | cons f rest ih =>
    intro i
    obtain ⟨ds, hds⟩ := rewriteAll_ok sns f.imports (h f (List.mem_cons_self _ _))
    obtain ⟨L, hL⟩ := ih (fun x hx => h x (List.mem_cons_of_mem _ hx)) (i + 1)
    exact ⟨(syntheticDirective i f :: ds) ++ L,
      by simp [buildContainer, stitchOne, hds, hL]⟩

theorem buildContainer_mem (sns : List (Option String × String)) (fs : List SchemaFragment) :
    ∀ (i : Nat) (L : List ImportDirective), buildContainer sns i fs = .ok L →
    ∀ j f, fs[j]? = some f →
      syntheticDirective (i + j) f ∈ L ∧
      ∀ d ∈ f.imports, ∃ d', rewriteDirective sns d = .ok d' ∧ d' ∈ L := by
  induction fs with
  | nil => intro i L _ j f hj; simp at hj
  | cons f0 rest ih =>
    intro i L hL j f hj
    simp only [buildContainer, stitchOne] at hL
    cases hra : rewriteAll sns f0.imports with
    | error e => rw [hra] at hL; simp at hL
    | ok ds0 =>
      rw [hra] at hL
      cases hbc : buildContainer sns (i + 1) rest with
      | error e => rw [hbc] at hL; simp at hL
      | ok L' =>
        rw [hbc] at hL
        simp only [Except.ok.injEq] at hL
        subst hL
        cases j with
        | zero =>
          simp only [List.getElem?_cons_zero, Option.some.injEq] at hj
          subst hj
          constructor
          · simp [Nat.add_zero]
          · intro d hd
            obtain ⟨d', h1, h2⟩ := rewriteAll_mem sns _ ds0 hra d hd
            exact ⟨d', h1, by simp [h2]⟩
        | succ j' =>
          simp only [List.getElem?_cons_succ] at hj
          obtain ⟨hsyn, himp⟩ := ih (i + 1) L' hbc j' f hj
          constructor
          · have : i + 1 + j' = i + (j' + 1) := by omega
            rw [this] at hsyn
            simp [hsyn]
          · intro d hd
            obtain ⟨d', h1, h2⟩ := himp d hd
            exact ⟨d', h1, by simp [h2]⟩

theorem buildContainer_ok_resolves (sns : List (Option String × String))
    (fs : List SchemaFragment) (i : Nat) (L : List ImportDirective)
    (hL : buildContainer sns i fs = .ok L) :
    ∀ f ∈ fs, ∀ d ∈ f.imports, isFalsy d.schemaLocation = true → alookup sns d.ns ≠ none := by
  intro f hf d hd hfalsy hnone
  obtain ⟨j, hj⟩ := mem_getElem? fs f hf
  obtain ⟨d', h1, _⟩ := (buildContainer_mem sns fs i L hL j f hj).2 d hd
  rw [rewriteDirective_err sns d hfalsy hnone] at h1
  simp at h1

/-- C8: schema stitching by case count.  Zero fragments: no schema.  One
fragment: it is wrapped directly as the composed schema, no synthetic
container.  Two or more: a synthetic container is built that holds one
synthetic import per fragment, copies every intra-fragment import
directive that already carries a schemaLocation unchanged, and rewrites
every location-less directive to the synthetic token of the fragment
whose target namespace it references (the `schema_ns` map sends a
namespace to the token `intschema:xsd<i>` of a fragment with that target
namespace). -/
theorem claim8_schema_stitching :
    (∀ loc, parse_types loc [] = .ok none) ∧
    (∀ loc f, parse_types loc [f] =
      .ok (some { node := .fromFragment f, location := loc, is_empty := f.schemaEmpty })) ∧
    (∀ loc fs, 2 ≤ fs.length →
      (∀ f ∈ fs, ∀ d ∈ f.imports,
        isFalsy d.schemaLocation = true → (alookup (schemaNs fs) d.ns).isSome = true) →
      ∃ L, parse_types loc fs =
          .ok (some { node := .fromContainer L, location := loc, is_empty := false }) ∧
        (∀ j f, fs[j]? = some f → syntheticDirective j f ∈ L) ∧
        (∀ f ∈ fs, ∀ d ∈ f.imports, isFalsy d.schemaLocation = false → d ∈ L) ∧
        (∀ f ∈ fs, ∀ d ∈ f.imports, ∀ tok, isFalsy d.schemaLocation = true →
          alookup (schemaNs fs) d.ns = some tok →
          ({ d with schemaLocation := some tok } : ImportDirective) ∈ L)) ∧
    (∀ fs ns tok, alookup (schemaNs fs) ns = some tok →
      ∃ i f, fs[i]? = some f ∧ f.targetNamespace = ns ∧ tok = intName i) := by
  refine ⟨fun loc => rfl, fun loc f => rfl, ?_, ?_⟩
  · intro loc fs hlen hwf
    match fs, hlen with
    | a :: b :: t, _ =>
      obtain ⟨L, hL⟩ := buildContainer_ok (schemaNs (a :: b :: t)) (a :: b :: t) hwf 0
      refine ⟨L, by simp [parse_types, hL], ?_, ?_, ?_⟩
      · intro j f hj
        simpa using (buildContainer_mem _ _ 0 L hL j f hj).1
      · intro f hf d hd hfalsy
        obtain ⟨j, hj⟩ := mem_getElem? _ f hf
        obtain ⟨d', h1, h2⟩ := (buildContainer_mem _ _ 0 L hL j f hj).2 d hd
        rw [rewriteDirective_notfalsy _ d hfalsy] at h1
        cases h1
        exact h2
      · intro f hf d hd tok hfalsy htok
        obtain ⟨j, hj⟩ := mem_getElem? _ f hf
        obtain ⟨d', h1, h2⟩ := (buildContainer_mem _ _ 0 L hL j f hj).2 d hd
        rw [rewriteDirective_falsy _ d tok hfalsy htok] at h1
        cases h1
        exact h2
  · intro fs ns tok h
    rcases schemaNsGo_lookup fs 0 [] ns tok h with ⟨i, f, hr, htns, htok⟩ | habs
    · exact ⟨i, f, hr, htns, by simpa using htok⟩
    · simp [alookup] at habs

/-- C8 witness: two fragments, the first importing the second by
namespace only; the stitch succeeds, the location-less directive is
rewritten to the second fragment's token, and the token map points back
at the fragments. -/
theorem claim8_witness :
    ∃ L, parse_types "w"
        [⟨some "ns1", false, [⟨none, some "ns2"⟩]⟩, ⟨some "ns2", false, []⟩] =
        .ok (some { node := .fromContainer L, location := "w", is_empty := false }) ∧
      (∀ j f, [(⟨some "ns1", false, [⟨none, some "ns2"⟩]⟩ : SchemaFragment),
        ⟨some "ns2", false, []⟩][j]? = some f → syntheticDirective j f ∈ L) ∧
      (∀ f ∈ [(⟨some "ns1", false, [⟨none, some "ns2"⟩]⟩ : SchemaFragment),
        ⟨some "ns2", false, []⟩], ∀ d ∈ f.imports,
        isFalsy d.schemaLocation = false → d ∈ L) ∧
      (∀ f ∈ [(⟨some "ns1", false, [⟨none, some "ns2"⟩]⟩ : SchemaFragment),
        ⟨some "ns2", false, []⟩], ∀ d ∈ f.imports, ∀ tok,
        isFalsy d.schemaLocation = true →
        alookup (schemaNs [⟨some "ns1", false, [⟨none, some "ns2"⟩]⟩,
          ⟨some "ns2", false, []⟩]) d.ns = some tok →
        ({ d with schemaLocation := some tok } : ImportDirective) ∈ L) :=
  claim8_schema_stitching.2.2.1 "w"
    [⟨some "ns1", false, [⟨none, some "ns2"⟩]⟩, ⟨some "ns2", false, []⟩]
    (by decide) (by decide)

/-- C10: in the multi-fragment case, a location-less intra-fragment import
whose namespace is not the target namespace of any sibling
fragment makes `parse_types` fail with the unguarded `schema_ns[...]`
map-lookup error instead of returning a composed schema. -/
theorem claim10_unguarded_stitch_lookup :
    ∀ loc (fs : List SchemaFragment), 2 ≤ fs.length →
    (∃ f ∈ fs, ∃ d ∈ f.imports, isFalsy d.schemaLocation = true ∧
      ∀ f' ∈ fs, f'.targetNamespace ≠ d.ns) →
    ∃ e, parse_types loc fs = .error e := by
  intro loc fs hlen hbad
  obtain ⟨f, hf, d, hd, hfalsy, hnosib⟩ := hbad
  have hnone : alookup (schemaNs fs) d.ns = none := by
    rw [schemaNs, schemaNsGo_lookup_none fs 0 [] d.ns hnosib]
    rfl
  match fs, hlen, hf, hnosib, hnone with
  | a :: b :: t, _, hf, hnosib, hnone =>
    cases hbc : buildContainer (schemaNs (a :: b :: t)) 0 (a :: b :: t) with
    | ok L =>
      exact absurd hnone
        (buildContainer_ok_resolves _ _ 0 L hbc f hf d hd hfalsy)
    | error e => exact ⟨e, by simp [parse_types, hbc]⟩

/-- C10 witness: the first fragment imports namespace "nsX" without a
location while no fragment declares "nsX"; the stitch fails. -/
theorem claim10_witness :
    ∃ e, parse_types "w"
      [⟨some "ns1", false, [⟨none, some "nsX"⟩]⟩, ⟨some "ns2", false, []⟩] = .error e :=
  claim10_unguarded_stitch_lookup "w"
    [⟨some "ns1", false, [⟨none, some "nsX"⟩]⟩, ⟨some "ns2", false, []⟩]
    (by decide)
    ⟨⟨some "ns1", false, [⟨none, some "nsX"⟩]⟩, by decide, ⟨none, some "nsX"⟩,
      by decide, by decide, by decide⟩

/-! ## Resolve phase (claims C1, C3) -/

theorem set_oob {α : Type} (l : List α) (i : Nat) (a : α) (h : l.length ≤ i) :
    l.set i a = l := by
  induction l generalizing i with
  | nil => rfl
  | cons x t ih =>
    cases i with
    | zero => simp at h
    | succ j =>
      simp only [List.length_cons] at h
      simp [List.set, ih j (by omega)]

theorem unresolvedCount_set_same (a : List Definition) (i : Nat) (d e : Definition)
    (hget : a[i]? = some d) (hsame : e.resolved_imports = d.resolved_imports) :
    unresolvedCount (a.set i e) = unresolvedCount a := by
  induction a generalizing i with
  | nil => simp at hget
  | cons x t ih =>
    cases i with
    | zero =>
      simp only [List.getElem?_cons_zero, Option.some.injEq] at hget
      subst hget
      simp [unresolvedCount_cons, hsame]
    | succ j =>
      simp only [List.getElem?_cons_succ] at hget
      simp [List.set, unresolvedCount_cons, ih j hget]

theorem resolvedAt_set_true (a : List Definition) (i : Nat) (e : Definition)
    (he : e.resolved_imports = true) :
    ∀ m, resolvedAt a m = true → resolvedAt (a.set i e) m = true := by
  intro m hm
  by_cases him : i = m
  · subst him
    by_cases hl : i < a.length
    · simp [resolvedAt, getElem?_set_self' a i e hl, he]
    · rw [set_oob a i e (by omega)]
      exact hm
  · simp only [resolvedAt, getElem?_set_ne' a i m e him]
    simpa [resolvedAt] using hm

theorem resolvedAt_of_getElem (a : List Definition) (i : Nat) (d : Definition)
    (h : a[i]? = some d) : resolvedAt a i = d.resolved_imports := by
  simp [resolvedAt, h]

theorem adoptedArena_length (arena : List Definition) (i : Nat) (d1 : Definition) :
    (adoptedArena arena i d1).length = arena.length := by
  unfold adoptedArena
  split <;> simp

theorem adoptedArena_mono (arena : List Definition) (i : Nat) (d1 : Definition)
    (hd1 : d1.resolved_imports = true) :
    ∀ m, resolvedAt arena m = true → resolvedAt (adoptedArena arena i d1) m = true := by
  intro m hm
  unfold adoptedArena
  split
  · exact resolvedAt_set_true _ i
      { d1 with schema := some (SchemaObj.emptyAt d1.location) } hd1 m
      (resolvedAt_set_true arena i d1 hd1 m hm)
  · exact resolvedAt_set_true arena i d1 hd1 m hm

theorem adoptedArena_flag (arena : List Definition) (i : Nat) (d1 : Definition)
    (hl : i < arena.length) (hd1 : d1.resolved_imports = true) :
    resolvedAt (adoptedArena arena i d1) i = true := by
  unfold adoptedArena
  split
  · rw [resolvedAt_of_getElem _ i _
      (getElem?_set_self' (arena.set i d1) i _ (by simpa using hl))]
    exact hd1
  · rw [resolvedAt_of_getElem _ i _ (getElem?_set_self' arena i d1 hl)]
    exact hd1

theorem adoptedArena_count (arena : List Definition) (i : Nat) (d d1 : Definition)
    (hget : arena[i]? = some d) (hd : d.resolved_imports = false)
    (hd1 : d1.resolved_imports = true) :
    unresolvedCount (adoptedArena arena i d1) + 1 = unresolvedCount arena := by
  have hl : i < arena.length := lt_of_getElem?_some arena i d hget
  unfold adoptedArena
  split
  · rw [unresolvedCount_set_same (arena.set i d1) i d1
      { d1 with schema := some (SchemaObj.emptyAt d1.location) }
      (getElem?_set_self' arena i d1 hl) rfl]
    exact unresolvedCount_set_dec arena i d d1 hget hd hd1
  · exact unresolvedCount_set_dec arena i d d1 hget hd hd1

theorem resolveFinish_length (a : List Definition) (i : Nat) :
    (resolveFinish a i).length = a.length := by
  simp only [resolveFinish]
  cases hg : a[i]? <;> simp

theorem resolveFinish_mono (a : List Definition) (i : Nat) :
    ∀ m, resolvedAt a m = true → resolvedAt (resolveFinish a i) m = true := by
  intro m hm
  simp only [resolveFinish]
  cases hg : a[i]? with
  | none => exact hm
  | some e =>
    by_cases him : i = m
    · subst him
      have he : e.resolved_imports = true := by
        rw [resolvedAt_of_getElem a i e hg] at hm
        exact hm
      rw [resolvedAt_of_getElem _ i { e with resolveRuns := e.resolveRuns + 1 }
        (getElem?_set_self' a i _ (lt_of_getElem?_some a i e hg))]
      exact he
    · simp only [resolvedAt, getElem?_set_ne' a i m _ him]
      simpa [resolvedAt] using hm

theorem resolveFinish_count (a : List Definition) (i : Nat) :
    unresolvedCount (resolveFinish a i) = unresolvedCount a := by
  simp only [resolveFinish]
  cases hg : a[i]? with
  | none => rfl
  | some e => exact unresolvedCount_set_same a i e _ hg rfl

theorem resolveList_length (recurse : List Definition → Nat → Option (List Definition))
    (h : ∀ a j a', recurse a j = some a' → a'.length = a.length) :
    ∀ (decls : List (Option String × Nat)) a a',
    resolveList recurse decls a = some a' → a'.length = a.length := by
  intro decls
  induction decls with
  | nil =>
    intro a a' hr
    simp only [resolveList, Option.some.injEq] at hr
    rw [hr]
  | cons q rest ih =>
    intro a a' hr
    obtain ⟨ns, j⟩ := q
    simp only [resolveList] at hr
    cases hc : recurse a j with
    | none => rw [hc] at hr; simp at hr
    | some a1 =>
      rw [hc] at hr
      rw [ih a1 a' hr, h a j a1 hc]

theorem resolveList_mono (recurse : List Definition → Nat → Option (List Definition))
    (h : ∀ a j a', recurse a j = some a' →
      ∀ m, resolvedAt a m = true → resolvedAt a' m = true) :
    ∀ (decls : List (Option String × Nat)) a a',
    resolveList recurse decls a = some a' →
    ∀ m, resolvedAt a m = true → resolvedAt a' m = true := by
  intro decls
  induction decls with
  | nil =>
    intro a a' hr
    simp only [resolveList, Option.some.injEq] at hr
    rw [hr]
    exact fun m hm => hm
  | cons q rest ih =>
    intro a a' hr m hm
    obtain ⟨ns, j⟩ := q
    simp only [resolveList] at hr
    cases hc : recurse a j with
    | none => rw [hc] at hr; simp at hr
    | some a1 =>
      rw [hc] at hr
      exact ih a1 a' hr m (h a j a1 hc m hm)

theorem resolveList_count (recurse : List Definition → Nat → Option (List Definition))
    (h : ∀ a j a', recurse a j = some a' → unresolvedCount a' ≤ unresolvedCount a) :
    ∀ (decls : List (Option String × Nat)) a a',
    resolveList recurse decls a = some a' → unresolvedCount a' ≤ unresolvedCount a := by
  intro decls
  induction decls with
  | nil =>
    intro a a' hr
    simp only [resolveList, Option.some.injEq] at hr
    rw [hr]
  | cons q rest ih =>
    intro a a' hr
    obtain ⟨ns, j⟩ := q
    simp only [resolveList] at hr
    cases hc : recurse a j with
    | none => rw [hc] at hr; simp at hr
    | some a1 =>
      rw [hc] at hr
      exact Nat.le_trans (ih a1 a' hr) (h a j a1 hc)

theorem resolveList_total (recurse : List Definition → Nat → Option (List Definition))
    (n : Nat)
    (hcount : ∀ a j a', recurse a j = some a' → unresolvedCount a' ≤ unresolvedCount a)
    (htotal : ∀ a j, unresolvedCount a < n → recurse a j ≠ none) :
    ∀ (decls : List (Option String × Nat)) a, unresolvedCount a < n →
    resolveList recurse decls a ≠ none := by
  intro decls
  induction decls with
  | nil => intro a _ h; simp [resolveList] at h
  | cons q rest ih =>
    intro a ha h
    obtain ⟨ns, j⟩ := q
    simp only [resolveList] at h
    cases hc : recurse a j with
    | none => exact htotal a j ha hc
    | some a1 =>
      rw [hc] at h
      exact ih a1 (Nat.lt_of_le_of_lt (hcount a j a1 hc) ha) h

theorem resolveImports_length :
    ∀ fuel a i a', resolveImports fuel a i = some a' → a'.length = a.length := by
  intro fuel
  induction fuel with
  | zero => intro a i a' h; simp [resolveImports] at h
  | succ fuel ih =>
    intro a i a' h
    simp only [resolveImports] at h
    cases hg : a[i]? with
    | none => rw [hg] at h; simp only [Option.some.injEq] at h; rw [h]
    | some d =>
      rw [hg] at h
      cases hres : d.resolved_imports with
      | true =>
        simp [hres] at h
        rw [h]
      | false =>
        simp only [hres, Bool.false_eq_true, if_false] at h
        simp only [resolveBody] at h
        cases hrl : resolveList (fun a j => resolveImports fuel a j) d.importsMap
            (adoptedArena a i { d with resolved_imports := true }) with
        | none => rw [hrl] at h; simp at h
        | some a3 =>
          rw [hrl] at h
          simp only [Option.some.injEq] at h
          rw [← h, resolveFinish_length,
            resolveList_length _ (fun a j a' hr => ih a j a' hr) _ _ a3 hrl,
            adoptedArena_length]

theorem resolveImports_mono :
    ∀ fuel a i a', resolveImports fuel a i = some a' →
    ∀ m, resolvedAt a m = true → resolvedAt a' m = true := by
  intro fuel
  induction fuel with
  | zero => intro a i a' h; simp [resolveImports] at h
  | succ fuel ih =>
    intro a i a' h m hm
    simp only [resolveImports] at h
    cases hg : a[i]? with
    | none => rw [hg] at h; simp only [Option.some.injEq] at h; rw [← h]; exact hm
    | some d =>
      rw [hg] at h
      cases hres : d.resolved_imports with
      | true =>
        simp [hres] at h
        rw [← h]
        exact hm
      | false =>
        simp only [hres, Bool.false_eq_true, if_false] at h
        simp only [resolveBody] at h
        cases hrl : resolveList (fun a j => resolveImports fuel a j) d.importsMap
            (adoptedArena a i { d with resolved_imports := true }) with
        | none => rw [hrl] at h; simp at h
        | some a3 =>
          rw [hrl] at h
          simp only [Option.some.injEq] at h
          rw [← h]
          exact resolveFinish_mono a3 i m
            (resolveList_mono _ (fun a j a' hr => ih a j a' hr) _ _ a3 hrl m
              (adoptedArena_mono a i _ rfl m hm))

theorem resolveImports_count :
    ∀ fuel a i a', resolveImports fuel a i = some a' →
    unresolvedCount a' ≤ unresolvedCount a := by
  intro fuel
  induction fuel with
  | zero => intro a i a' h; simp [resolveImports] at h
  | succ fuel ih =>
    intro a i a' h
    simp only [resolveImports] at h
    cases hg : a[i]? with
    | none => rw [hg] at h; simp only [Option.some.injEq] at h; rw [h]
    | some d =>
      rw [hg] at h
      cases hres : d.resolved_imports with
      | true =>
        simp [hres] at h
        rw [h]
      | false =>
        simp only [hres, Bool.false_eq_true, if_false] at h
        simp only [resolveBody] at h
        cases hrl : resolveList (fun a j => resolveImports fuel a j) d.importsMap
            (adoptedArena a i { d with resolved_imports := true }) with
        | none => rw [hrl] at h; simp at h
        | some a3 =>
          rw [hrl] at h
          simp only [Option.some.injEq] at h
          have h1 := resolveList_count _ (fun a j a' hr => ih a j a' hr) _ _ a3 hrl
          have h2 := adoptedArena_count a i d { d with resolved_imports := true } hg hres rfl
          rw [← h, resolveFinish_count]
          omega

theorem resolveImports_total :
    ∀ fuel a i, unresolvedCount a < fuel → resolveImports fuel a i ≠ none := by
  intro fuel
  induction fuel with
  | zero => intro a i h; omega
  | succ fuel ih =>
    intro a i ha h
    simp only [resolveImports] at h
    cases hg : a[i]? with
    | none => rw [hg] at h; simp at h
    | some d =>
      rw [hg] at h
      cases hres : d.resolved_imports with
      | true => simp [hres] at h
      | false =>
        simp only [hres, Bool.false_eq_true, if_false] at h
        simp only [resolveBody] at h
        have h2 := adoptedArena_count a i d { d with resolved_imports := true } hg hres rfl
        cases hrl : resolveList (fun a j => resolveImports fuel a j) d.importsMap
            (adoptedArena a i { d with resolved_imports := true }) with
        | none =>
          exact resolveList_total _ fuel (fun a j a' hr => resolveImports_count fuel a j a' hr)
            (fun a j hj => ih a j hj) d.importsMap _ (by omega) hrl
        | some a3 => rw [hrl] at h; simp at h

theorem resolveImports_flag :
    ∀ fuel a i a', resolveImports fuel a i = some a' → resolvedAt a' i = true := by
  intro fuel
  induction fuel with
  | zero => intro a i a' h; simp [resolveImports] at h
  | succ fuel ih =>
    intro a i a' h
    simp only [resolveImports] at h
    cases hg : a[i]? with
    | none =>
      rw [hg] at h
      simp only [Option.some.injEq] at h
      rw [← h]
      simp [resolvedAt, hg]
    | some d =>
      rw [hg] at h
      cases hres : d.resolved_imports with
      | true =>
        simp [hres] at h
        rw [← h, resolvedAt_of_getElem a i d hg]
        exact hres
      | false =>
        simp only [hres, Bool.false_eq_true, if_false] at h
        simp only [resolveBody] at h
        cases hrl : resolveList (fun a j => resolveImports fuel a j) d.importsMap
            (adoptedArena a i { d with resolved_imports := true }) with
        | none => rw [hrl] at h; simp at h
        | some a3 =>
          rw [hrl] at h
          simp only [Option.some.injEq] at h
          rw [← h]
          refine resolveFinish_mono a3 i i
            (resolveList_mono _ (fun a j a' hr => resolveImports_mono fuel a j a' hr)
              _ _ a3 hrl i ?_)
          exact adoptedArena_flag a i _ (lt_of_getElem?_some a i d hg) rfl

theorem resolveImports_guard (fuel : Nat) (a : List Definition) (i : Nat)
    (hfuel : 1 ≤ fuel) (hres : resolvedAt a i = true) :
    resolveImports fuel a i = some a := by
  cases fuel with
  | zero => omega
  | succ fuel =>
    simp only [resolveImports]
    cases hg : a[i]? with
    | none => rfl
    | some d =>
      rw [resolvedAt_of_getElem a i d hg] at hres
      simp [hres]

/-- C3: `resolve_imports` is idempotent.  When a call on the Definition
at arena index `i` returns, (1) any later call returns immediately with
the arena — hence every Definition's schema, messages, port_types,
bindings and services tables — unchanged, (2) no Definition's
`_resolved_imports` flag ever reverts from true to false, and (3) the
resolved flag of the Definition that was called is true (the flag is set
before any recursion, so it flips false→true exactly once and the entry
guard short-circuits every subsequent call). -/
theorem claim3_resolve_idempotent :
    ∀ fuel arena i arena', resolveImports fuel arena i = some arena' →
    (∀ fuel2, 1 ≤ fuel2 → resolveImports fuel2 arena' i = some arena') ∧
    (∀ j, resolvedAt arena j = true → resolvedAt arena' j = true) ∧
    resolvedAt arena' i = true := by
  intro fuel arena i arena' h
  exact ⟨fun fuel2 h2 =>
      resolveImports_guard fuel2 arena' i h2 (resolveImports_flag fuel arena i arena' h),
    fun j => resolveImports_mono fuel arena i arena' h j,
    resolveImports_flag fuel arena i arena' h⟩

/-- C3 witness: resolving the two-cycle `arenaAB` once yields `arenaAB'`;
a second call with any fuel returns immediately with the identical
arena. -/
theorem claim3_witness : resolveImports 1 arenaAB' 0 = some arenaAB' :=
  (claim3_resolve_idempotent 3 arenaAB 0 arenaAB' (by decide)).1 1 (by decide)

/-- C1: the schema-adoption step of `resolve_imports` does NOT adopt an imported
schema.  On `arenaAB` — Definition A without a schema importing
Definition B whose schema is non-empty — the adoption loop picks up B's
schema (first conjunct), but the loop has no `break`, so Python's
`for`/`else` clause always runs and overwrites `self.schema` with a
fresh empty schema scoped to A's own location: after `resolve_imports`,
A's schema is the empty schema, not B's (remaining conjuncts).  This
contradicts the claim (and the comment at wsdl.py:176-177), which say the
first non-empty imported schema is adopted. -/
theorem claim1_for_else_discards_imported_schema :
    adoptionLoop (arenaAB.set 0 { defnA with resolved_imports := true })
      defnA.importsMap none = some schemaB ∧
    schemaB.is_empty = false ∧
    resolveImports 3 arenaAB 0 = some arenaAB' ∧
    arenaAB'.map Definition.schema =
      [some (SchemaObj.emptyAt "locA"), some schemaB] ∧
    SchemaObj.emptyAt "locA" ≠ schemaB := by
  refine ⟨by decide, rfl, by decide, by decide, by decide⟩

/-- C6: a bare-schema import is assigned to the Definition's schema field
by `parse_imports` (wsdl.py:229) and no entry is added to the imports
map — but `__init__` then executes `self.schema = self.parse_types(doc)`
(wsdl.py:148), unconditionally overwriting the field; with no inline
types the Definition ends construction with a null schema.  The first
half shows the state right after the import loop (schema = the imported
document's schema, imports empty); the second half shows the completed
construction (schema = none, imports still empty). -/
theorem claim6_bare_schema_import_overwritten :
    (parseLoop worldC6 (fun d l s => parseDef 1 worldC6 d l s) 0
        docRootC6.importDecls st1C6 = .ok st2C6 ∧
      st2C6.arena.map Definition.schema =
        [some { node := .fromDoc 5, location := "sloc", is_empty := false }] ∧
      st2C6.arena.map Definition.importsMap = [[]]) ∧
    (parseDef 2 worldC6 docRootC6 "rloc" PState.empty = .ok stC6final ∧
      stC6final.arena.map Definition.schema = [none] ∧
      stC6final.arena.map Definition.importsMap = [[]]) := by
  refine ⟨⟨by decide, by decide, by decide⟩, ⟨by decide, by decide, by decide⟩⟩

/-! ## Parse phase (claims C2, C6) -/

theorem nodup_snoc {α : Type} (l : List α) (a : α) (ha : a ∉ l) (hl : l.Nodup) :
    (l ++ [a]).Nodup := by
  induction l with
  | nil => simp
  | cons x t ih =>
    simp only [List.nodup_cons] at hl
    simp only [List.cons_append, List.nodup_cons, List.mem_append, List.mem_singleton]
    refine ⟨?_, ih (fun h => ha (List.mem_cons_of_mem _ h)) hl.2⟩
    rintro (hxt | rfl)
    · exact hl.1 hxt
    · exact ha (List.mem_cons_self _ _)

theorem updDef_registry (st : PState) (i : Nat) (f : Definition → Definition) :
    (updDef st i f).registry = st.registry := by
  unfold updDef
  split <;> rfl

theorem updDef_parses (st : PState) (i : Nat) (f : Definition → Definition) :
    (updDef st i f).parses = st.parses := by
  unfold updDef
  split <;> rfl

theorem docImportsCoherent_spec (w : World) (doc : RawDoc)
    (h : docImportsCoherent w doc = true) :
    ∀ p ∈ doc.importDecls, ∀ d, alookup w p.1 = some d → d.targetNamespace = p.2 := by
  intro p hp d hd
  have h2 := List.all_eq_true.mp h p hp
  rw [hd] at h2
  exact of_decide_eq_true h2

theorem coherentWorld_spec (w : World) (h : coherentWorld w = true) :
    ∀ q ∈ w, docImportsCoherent w q.2 = true :=
  fun q hq => List.all_eq_true.mp h q hq

theorem tns_mem_worldNS (w : World) (l : String) (d : RawDoc)
    (h : alookup w l = some d) : d.targetNamespace ∈ worldNS w := by
  unfold worldNS
  rw [List.mem_dedup]
  exact List.mem_map_of_mem (fun p => p.2.targetNamespace) (alookup_mem w l d h)

theorem parseLoop_keys (world : World)
    (recurse : RawDoc → String → PState → PResult) (selfIdx : Nat)
    (hrec : ∀ doc l s s', recurse doc l s = .ok s' →
      ∀ k, k ∈ keysOf s.registry → k ∈ keysOf s'.registry) :
    ∀ (decls : List (String × Option String)) (st st' : PState),
    parseLoop world recurse selfIdx decls st = .ok st' →
    ∀ k, k ∈ keysOf st.registry → k ∈ keysOf st'.registry := by
  intro decls
  induction decls with
  | nil =>
    intro st st' h k hk
    simp only [parseLoop, PResult.ok.injEq] at h
    rw [← h]
    exact hk
  | cons q rest ih =>
    intro st st' h k hk
    obtain ⟨loc, ns⟩ := q
    simp only [parseLoop] at h
    cases hreg : alookup st.registry ns with
    | some j =>
      rw [hreg] at h
      exact ih _ st' h k (by rw [updDef_registry]; exact hk)
    | none =>
      rw [hreg] at h
      cases hw : alookup world loc with
      | none => rw [hw] at h; simp at h
      | some doc2 =>
        rw [hw] at h
        cases hsch : doc2.rootIsSchema with
        | true =>
          simp only [hsch, if_true] at h
          exact ih _ st' h k (by rw [updDef_registry]; exact hk)
        | false =>
          simp only [hsch, Bool.false_eq_true, if_false] at h
          split at h
          · rename_i st2 heq
            refine ih _ st' h k ?_
            rw [updDef_registry]
            exact hrec doc2 loc _ st2 heq k hk
          · rename_i x hne
            exact absurd h (hne st')

theorem parseDef_keys :
    ∀ (fuel : Nat) (world : World) (doc : RawDoc) (loc : String) (st st' : PState),
    parseDef fuel world doc loc st = .ok st' →
    ∀ k, k ∈ keysOf st.registry → k ∈ keysOf st'.registry := by
  intro fuel
  induction fuel with
  | zero => intro world doc loc st st' h; simp [parseDef] at h
  | succ fuel ih =>
    intro world doc loc st st' h k hk
    simp only [parseDef] at h
    split at h
    · rename_i st2 heq
      split at h
      · simp at h
      · simp only [PResult.ok.injEq] at h
        rw [← h, updDef_registry]
        refine parseLoop_keys world _ _ (fun d l s s' hr => ih world d l s s' hr)
          doc.importDecls _ st2 heq k ?_
        show k ∈ keysOf (assocSet st.registry doc.targetNamespace st.arena.length)
        exact (mem_keysOf_assocSet _ _ _ k).mpr (Or.inr hk)
    · rename_i x hne
      exact absurd h (hne st')

theorem parseLoop_no_fuel (world : World) (fuel : Nat) (selfIdx : Nat)
    (hco : coherentWorld world = true)
    (hrec : ∀ doc loc st, docImportsCoherent world doc = true →
      unregCount world (doc.targetNamespace :: keysOf st.registry) + 1 ≤ fuel →
      parseDef fuel world doc loc st ≠ .outOfFuel) :
    ∀ (decls : List (String × Option String)) (st : PState),
    (∀ p ∈ decls, ∀ d, alookup world p.1 = some d → d.targetNamespace = p.2) →
    unregCount world (keysOf st.registry) ≤ fuel →
    parseLoop world (fun d l s => parseDef fuel world d l s) selfIdx decls st ≠
      .outOfFuel := by
  intro decls
  induction decls with
  | nil => intro st _ _ h; simp [parseLoop] at h
  | cons q rest ih =>
    intro st hdecl hU h
    obtain ⟨loc, ns⟩ := q
    have hdeclrest := fun p hp => hdecl p (List.mem_cons_of_mem _ hp)
    simp only [parseLoop] at h
    cases hreg : alookup st.registry ns with
    | some j =>
      rw [hreg] at h
      exact ih _ hdeclrest (by rw [updDef_registry]; exact hU) h
    | none =>
      rw [hreg] at h
      cases hw : alookup world loc with
      | none => rw [hw] at h; simp at h
      | some doc2 =>
        rw [hw] at h
        have htns : doc2.targetNamespace = ns :=
          hdecl (loc, ns) (List.mem_cons_self _ _) doc2 hw
        cases hsch : doc2.rootIsSchema with
        | true =>
          simp only [hsch, if_true] at h
          exact ih _ hdeclrest (by rw [updDef_registry]; exact hU) h
        | false =>
          simp only [hsch, Bool.false_eq_true, if_false] at h
          have hns_not : ns ∉ keysOf st.registry := (alookup_eq_none _ _).mp hreg
          have hmem : ns ∈ worldNS world := htns ▸ tns_mem_worldNS world loc doc2 hw
          have hdrop : unregCount world (ns :: keysOf st.registry) <
              unregCount world (keysOf st.registry) :=
            unregCount_strict world (keysOf st.registry) (ns :: keysOf st.registry) ns
              hmem hns_not (List.mem_cons_self _ _) (fun a ha => List.mem_cons_of_mem _ ha)
          have hco2 : docImportsCoherent world doc2 = true :=
            coherentWorld_spec world hco (loc, doc2) (alookup_mem world loc doc2 hw)
          cases hpd : parseDef fuel world doc2 loc { st with loads := st.loads ++ [loc] } with
          | ok st2 =>
            rw [hpd] at h
            refine ih _ hdeclrest ?_ h
            rw [updDef_registry]
            have hmono : ∀ k, k ∈ keysOf st.registry → k ∈ keysOf st2.registry :=
              parseDef_keys fuel world doc2 loc { st with loads := st.loads ++ [loc] } st2 hpd
            exact Nat.le_trans (unregCount_mono world _ _ hmono) hU
          | loadFail l => rw [hpd] at h; simp at h
          | stitchFail e => rw [hpd] at h; simp at h
          | outOfFuel =>
            refine hrec doc2 loc _ hco2 ?_ hpd
            show unregCount world (doc2.targetNamespace :: keysOf st.registry) + 1 ≤ fuel
            rw [htns]
            omega

theorem parseDef_no_fuel :
    ∀ (fuel : Nat) (world : World) (doc : RawDoc) (loc : String) (st : PState),
    coherentWorld world = true → docImportsCoherent world doc = true →
    unregCount world (doc.targetNamespace :: keysOf st.registry) + 1 ≤ fuel →
    parseDef fuel world doc loc st ≠ .outOfFuel := by
  intro fuel
  induction fuel with
  | zero => intro world doc loc st _ _ hU; omega
  | succ fuel ih =>
    intro world doc loc st hco hdoc hU h
    simp only [parseDef] at h
    cases hpl : parseLoop world (fun d l s => parseDef fuel world d l s) st.arena.length
        doc.importDecls
        { registry := assocSet st.registry doc.targetNamespace st.arena.length,
          arena := st.arena ++ [Definition.blank doc.targetNamespace loc],
          loads := st.loads, parses := st.parses ++ [doc.targetNamespace] } with
    | ok st2 =>
      rw [hpl] at h
      cases hpt : parse_types loc doc.types with
      | error e => rw [hpt] at h; simp at h
      | ok sch => rw [hpt] at h; simp at h
    | loadFail l => rw [hpl] at h; simp at h
    | stitchFail e => rw [hpl] at h; simp at h
    | outOfFuel =>
      refine parseLoop_no_fuel world fuel st.arena.length hco
        (fun d l s hd hU2 => ih world d l s hco hd hU2)
        doc.importDecls _ (docImportsCoherent_spec world doc hdoc) ?_ hpl
      show unregCount world
        (keysOf (assocSet st.registry doc.targetNamespace st.arena.length)) ≤ fuel
      rw [unregCount_congr world _ (doc.targetNamespace :: keysOf st.registry)
        (fun a => by
          rw [mem_keysOf_assocSet, List.mem_cons])]
      omega

theorem parseLoop_inv (world : World) (fuel : Nat) (selfIdx : Nat)
    (hco : coherentWorld world = true)
    (hrecInv : ∀ doc loc st st', docImportsCoherent world doc = true →
      parseDef fuel world doc loc st = .ok st' →
      doc.targetNamespace ∉ keysOf st.registry →
      st.parses.Nodup → (∀ x ∈ st.parses, x ∈ keysOf st.registry) →
      st'.parses.Nodup ∧ (∀ x ∈ st'.parses, x ∈ keysOf st'.registry)) :
    ∀ (decls : List (String × Option String)) (st st' : PState),
    parseLoop world (fun d l s => parseDef fuel world d l s) selfIdx decls st = .ok st' →
    (∀ p ∈ decls, ∀ d, alookup world p.1 = some d → d.targetNamespace = p.2) →
    st.parses.Nodup → (∀ x ∈ st.parses, x ∈ keysOf st.registry) →
    st'.parses.Nodup ∧ (∀ x ∈ st'.parses, x ∈ keysOf st'.registry) := by
  intro decls
  induction decls with
  | nil =>
    intro st st' h _ h1 h2
    simp only [parseLoop, PResult.ok.injEq] at h
    rw [← h]
    exact ⟨h1, h2⟩
  | cons q rest ih =>
    intro st st' h hdecl h1 h2
    obtain ⟨loc, ns⟩ := q
    have hdeclrest := fun p hp => hdecl p (List.mem_cons_of_mem _ hp)
    simp only [parseLoop] at h
    cases hreg : alookup st.registry ns with
    | some j =>
      rw [hreg] at h
      refine ih _ st' h hdeclrest (by rw [updDef_parses]; exact h1) ?_
      intro x hx
      rw [updDef_parses] at hx
      rw [updDef_registry]
      exact h2 x hx
    | none =>
      rw [hreg] at h
      cases hw : alookup world loc with
      | none => rw [hw] at h; simp at h
      | some doc2 =>
        rw [hw] at h
        cases hsch : doc2.rootIsSchema with
        | true =>
          simp only [hsch, if_true] at h
          refine ih _ st' h hdeclrest (by rw [updDef_parses]; exact h1) ?_
          intro x hx
          rw [updDef_parses] at hx
          rw [updDef_registry]
          exact h2 x hx
        | false =>
          simp only [hsch, Bool.false_eq_true, if_false] at h
          have htns : doc2.targetNamespace = ns :=
            hdecl (loc, ns) (List.mem_cons_self _ _) doc2 hw
          have hco2 : docImportsCoherent world doc2 = true :=
            coherentWorld_spec world hco (loc, doc2) (alookup_mem world loc doc2 hw)
          cases hpd : parseDef fuel world doc2 loc { st with loads := st.loads ++ [loc] } with
          | ok st2 =>
            rw [hpd] at h
            have hns_not : ns ∉ keysOf st.registry := (alookup_eq_none _ _).mp hreg
            have hinv2 := hrecInv doc2 loc _ st2 hco2 hpd
              (by rw [htns]; exact hns_not) h1 h2
            refine ih _ st' h hdeclrest (by rw [updDef_parses]; exact hinv2.1) ?_
            intro x hx
            rw [updDef_parses] at hx
            rw [updDef_registry]
            exact hinv2.2 x hx
          | loadFail l => rw [hpd] at h; simp at h
          | stitchFail e => rw [hpd] at h; simp at h
          | outOfFuel => rw [hpd] at h; simp at h

theorem parseDef_inv :
    ∀ (fuel : Nat) (world : World) (doc : RawDoc) (loc : String) (st st' : PState),
    coherentWorld world = true → docImportsCoherent world doc = true →
    parseDef fuel world doc loc st = .ok st' →
    doc.targetNamespace ∉ keysOf st.registry →
    st.parses.Nodup → (∀ x ∈ st.parses, x ∈ keysOf st.registry) →
    st'.parses.Nodup ∧ (∀ x ∈ st'.parses, x ∈ keysOf st'.registry) := by
  intro fuel
  induction fuel with
  | zero => intro world doc loc st st' _ _ h; simp [parseDef] at h
  | succ fuel ih =>
    intro world doc loc st st' hco hdoc h hntns h1 h2
    simp only [parseDef] at h
    cases hpl : parseLoop world (fun d l s => parseDef fuel world d l s) st.arena.length
        doc.importDecls
        { registry := assocSet st.registry doc.targetNamespace st.arena.length,
          arena := st.arena ++ [Definition.blank doc.targetNamespace loc],
          loads := st.loads, parses := st.parses ++ [doc.targetNamespace] } with
    | ok st2 =>
      rw [hpl] at h
      cases hpt : parse_types loc doc.types with
      | error e => rw [hpt] at h; simp at h
      | ok sch =>
        rw [hpt] at h
        simp only [PResult.ok.injEq] at h
        have hinv1 : (st.parses ++ [doc.targetNamespace]).Nodup :=
          nodup_snoc _ _ (fun hmem => hntns (h2 _ hmem)) h1
        have hsub1 : ∀ x ∈ st.parses ++ [doc.targetNamespace],
            x ∈ keysOf (assocSet st.registry doc.targetNamespace st.arena.length) := by
          intro x hx
          rw [mem_keysOf_assocSet]
          rcases List.mem_append.mp hx with hx1 | hx2
          · exact Or.inr (h2 x hx1)
          · rw [List.mem_singleton] at hx2
            exact Or.inl hx2
        have hloop := parseLoop_inv world fuel st.arena.length hco
          (fun d l s s' hd hp hn ha hb => ih world d l s s' hco hd hp hn ha hb)
          doc.importDecls _ st2 hpl (docImportsCoherent_spec world doc hdoc) hinv1 hsub1
        rw [← h]
        refine ⟨by rw [updDef_parses]; exact hloop.1, ?_⟩
        intro x hx
        rw [updDef_parses] at hx
        rw [updDef_registry]
        exact hloop.2 x hx
    | loadFail l => rw [hpl] at h; simp at h
    | stitchFail e => rw [hpl] at h; simp at h
    | outOfFuel => rw [hpl] at h; simp at h

/-- C2: every Definition registers itself in the Document registry under
its target namespace before parsing its import declarations, and an import
of an already-registered namespace links the existing Definition
without loading or constructing anything.  Consequently, for every world
of documents whose import declarations are namespace-coherent (each
resolvable import declares the target namespace of the document it
points at — the well-formed WSDL situation the registry keying assumes),
construction from any root succeeds with fuel one larger than the number
of distinct target namespaces (so it terminates, cycles included), no
target namespace is ever parsed twice, and the subsequent
`resolve_imports` pass over the built arena terminates as well. -/
theorem claim2_registry_cycle_once :
    ∀ (world : World) (doc : RawDoc) (loc : String),
    coherentWorld world = true → docImportsCoherent world doc = true →
    parseDef ((worldNS world).length + 1) world doc loc PState.empty ≠ .outOfFuel ∧
    (∀ st, parseDef ((worldNS world).length + 1) world doc loc PState.empty = .ok st →
      st.parses.Nodup ∧
      resolveImports (st.arena.length + 1) st.arena 0 ≠ none) := by
  intro world doc loc hco hdoc
  constructor
  · apply parseDef_no_fuel _ world doc loc _ hco hdoc
    have h1 : unregCount world (doc.targetNamespace :: keysOf PState.empty.registry) ≤
        (worldNS world).length := unregCount_le _ _
    omega
  · intro st hst
    refine ⟨(parseDef_inv _ world doc loc _ st hco hdoc hst (by simp [PState.empty, keysOf])
      (by simp [PState.empty]) (by simp [PState.empty])).1, ?_⟩
    apply resolveImports_total
    have := unresolvedCount_le_length st.arena
    omega

/-- C2 witness: the three-document cycle A → B → C → A builds with fuel
4, produces `stCycle3` whose parse log holds each namespace exactly once,
and its resolve pass terminates. -/
theorem claim2_witness :
    parseDef ((worldNS worldCycle3).length + 1) worldCycle3 wdocA "locA" PState.empty ≠
      .outOfFuel ∧
    stCycle3.parses.Nodup ∧
    resolveImports (stCycle3.arena.length + 1) stCycle3.arena 0 ≠ none :=
  ⟨(claim2_registry_cycle_once worldCycle3 wdocA "locA" (by decide) (by decide)).1,
   ((claim2_registry_cycle_once worldCycle3 wdocA "locA" (by decide) (by decide)).2
     stCycle3 (by decide)).1,
   ((claim2_registry_cycle_once worldCycle3 wdocA "locA" (by decide) (by decide)).2
     stCycle3 (by decide)).2⟩

end Zeep
